import Mathlib

/-
  Verification of the OpenTelemetry Prometheus exporter translation layer
  (package prometheus, file modelled from src/unnamed/part_000).

  The Go source is shallowly embedded: strings become lists of characters
  or Lean strings, uint64 arithmetic is Nat arithmetic taken mod 2^64,
  float64 values appear only as opaque payloads or map keys and are
  modelled by rationals, and the external prometheus construction step
  (NewConstMetric / NewConstHistogram), which can reject a record, is
  modelled by an oracle parameter deciding acceptance from the descriptor
  and the label values.
-/

set_option autoImplicit false

namespace OtelProm

/-! ### sanitizeName (part_000 lines 254-305) -/

/-- The validity test of sanitizeName (part_000 lines 258-265): letters,
underscore, colon everywhere; ASCII digits only at a non-zero index. -/
def validRune (i : Nat) (r : Char) : Bool :=
  (decide ('a' ≤ r) && decide (r ≤ 'z')) || (decide ('A' ≤ r) && decide (r ≤ 'Z')) ||
    r == '_' || r == ':' || (decide ('0' ≤ r) && decide (r ≤ '9') && decide (0 < i))

/-- One character of the second loop of sanitizeName (part_000 lines 294-302):
valid characters are kept, anything else becomes an underscore. -/
def mapTail (c : Char) : Char :=
  if validRune 1 c then c else '_'

/-- Model of sanitizeName (part_000 lines 254-305) on character lists.
The Go function scans for the first invalid character; a leading ASCII
digit is prefixed (not replaced) by an underscore and the whole remaining
input is then mapped through the second loop, while any other invalid
character is replaced by an underscore with the remainder mapped through
the second loop.  All characters before the first invalid one are valid
ASCII, so byte indices and character indices agree on that region. -/
def sanitizeAux : Nat → List Char → List Char
  | _, [] => []
  | i, c :: cs =>
    if validRune i c then c :: sanitizeAux (i + 1) cs
    else if i == 0 && (decide ('0' ≤ c) && decide (c ≤ '9')) then
      '_' :: (c :: cs).map mapTail
    else
      '_' :: cs.map mapTail

def sanitizeName (n : List Char) : List Char :=
  sanitizeAux 0 n

def sanitizeNameStr (s : String) : String :=
  String.mk (sanitizeName s.data)

/-! Target-grammar predicate, written from the words of the specification:
character 0 must be in the set A-Z, a-z, underscore, colon, and every
later character may additionally be an ASCII digit. -/

def firstCharOK (c : Char) : Bool :=
  (decide ('A' ≤ c) && decide (c ≤ 'Z')) || (decide ('a' ≤ c) && decide (c ≤ 'z')) ||
    c == '_' || c == ':'

def restCharOK (c : Char) : Bool :=
  firstCharOK c || (decide ('0' ≤ c) && decide (c ≤ '9'))

/-- The output grammar of the specification as a boolean check: character 0
must satisfy firstCharOK and every character at positions 1 to n-1 must
satisfy restCharOK. -/
def grammarCheck : List Char → Bool
  | [] => true
  | c :: cs => firstCharOK c && cs.all restCharOK

def matchesGrammar (l : List Char) : Prop :=
  grammarCheck l = true

theorem validRune_pos (i : Nat) (c : Char) (h : i ≠ 0) : validRune i c = validRune 1 c := by
  have hp : 0 < i := Nat.pos_of_ne_zero h
  simp [validRune, hp]

theorem validRune_zero_eq (c : Char) : validRune 0 c = firstCharOK c := by
  rw [Bool.eq_iff_iff]
  simp only [validRune, firstCharOK, Bool.or_eq_true, Bool.and_eq_true,
    decide_eq_true_eq, lt_self_iff_false, and_false, or_false]
  tauto

theorem validRune_one_eq (c : Char) : validRune 1 c = restCharOK c := by
  rw [Bool.eq_iff_iff]
  simp only [validRune, restCharOK, firstCharOK, Bool.or_eq_true, Bool.and_eq_true,
    decide_eq_true_eq, Nat.lt_irrefl, zero_lt_one, and_true]
  tauto

theorem restCharOK_mapTail (c : Char) : restCharOK (mapTail c) = true := by
  unfold mapTail
  split
  · next h => rw [← validRune_one_eq]; exact h
  · decide

theorem sanitizeAux_pos_rest (cs : List Char) : ∀ i, i ≠ 0 →
    ∀ d ∈ sanitizeAux i cs, restCharOK d = true := by
  induction cs with
  | nil => intro i _ d hd; simp [sanitizeAux] at hd
  | cons c cs ih =>
    intro i hi d hd
    simp only [sanitizeAux] at hd
    have hiz : (i == 0) = false := by simp [hi]
    by_cases hv : validRune i c = true
    · rw [if_pos hv] at hd
      rcases List.mem_cons.mp hd with rfl | hmem
      · rw [← validRune_one_eq, ← validRune_pos i d hi]; exact hv
      · exact ih (i + 1) (Nat.succ_ne_zero i) d hmem
    · rw [if_neg hv, hiz] at hd
      simp only [Bool.false_and, Bool.false_eq_true, if_false] at hd
      rcases List.mem_cons.mp hd with rfl | hmem
      · decide
      · rcases List.mem_map.mp hmem with ⟨e, _, rfl⟩
        exact restCharOK_mapTail e

theorem grammar_cons (c : Char) (cs : List Char) (h0 : firstCharOK c = true)
    (ht : ∀ d ∈ cs, restCharOK d = true) : matchesGrammar (c :: cs) := by
  show grammarCheck (c :: cs) = true
  simp only [grammarCheck, Bool.and_eq_true, List.all_eq_true]
  exact ⟨h0, ht⟩

theorem mapped_rest (l : List Char) : ∀ d ∈ l.map mapTail, restCharOK d = true := by
  intro d hd
  rcases List.mem_map.mp hd with ⟨e, _, rfl⟩
  exact restCharOK_mapTail e

/-- Claim C4: for every input string, the output of sanitizeName matches the
target name grammar: character 0 is a letter, underscore or colon, and every
character at a later position is a letter, digit, underscore or colon. -/
theorem sanitizeName_matchesGrammar (s : String) :
    matchesGrammar (sanitizeNameStr s).data := by
  show matchesGrammar (sanitizeName s.data)
  rw [sanitizeName]
  cases s.data with
  | nil => rfl
  | cons c cs =>
    simp only [sanitizeAux]
    by_cases hv : validRune 0 c = true
    · rw [if_pos hv]
      exact grammar_cons _ _ (by rw [← validRune_zero_eq]; exact hv)
        (sanitizeAux_pos_rest cs 1 one_ne_zero)
    · rw [if_neg hv]
      by_cases hd : ((0 : Nat) == 0 && (decide ('0' ≤ c) && decide (c ≤ '9'))) = true
      · rw [if_pos hd]
        exact grammar_cons _ _ (by decide) (mapped_rest (c :: cs))
      · rw [if_neg hd]
        exact grammar_cons _ _ (by decide) (mapped_rest cs)

/-- Claim C3, counterexample: sanitizeName applied to the string 0abc does not
return _abc; the code prefixes the leading digit, producing _0abc. -/
theorem sanitizeName_0abc_ne : sanitizeNameStr "0abc" ≠ "_abc" ∧
    sanitizeNameStr "0abc" = "_0abc" := by
  constructor
  · decide
  · decide

/-- Claim C3, amended: a leading ASCII digit is prefixed with a single
underscore; the digit itself is kept and the remainder of the string is
sanitized by the tail rules, so sanitizeName of 0abc is _0abc. -/
theorem sanitizeName_leadingDigit (c : Char) (cs : List Char)
    (h1 : '0' ≤ c) (h2 : c ≤ '9') :
    sanitizeName (c :: cs) = '_' :: c :: cs.map mapTail := by
  have ha : ¬ ('a' ≤ c) := fun hc => absurd (le_trans hc h2) (by decide)
  have hA : ¬ ('A' ≤ c) := fun hc => absurd (le_trans hc h2) (by decide)
  have hu : c ≠ '_' := fun hc => by subst hc; exact absurd h2 (by decide)
  have hk : c ≠ ':' := fun hc => by subst hc; exact absurd h2 (by decide)
  have hv : validRune 0 c = false := by
    simp [validRune, ha, hA, hu, hk]
  have hmap : mapTail c = c := by
    rw [mapTail, if_pos]
    rw [validRune_one_eq, restCharOK]
    simp [h1, h2]
  rw [sanitizeName, sanitizeAux, if_neg (by simp [hv]), if_pos (by simp [h1, h2])]
  simp [hmap]

/-- Instantiation of sanitizeName_leadingDigit at the input 0abc. -/
theorem sanitizeName_leadingDigit_witness :
    ('0' ≤ '0' ∧ '0' ≤ '9') ∧
      sanitizeName ('0' :: ['a', 'b', 'c']) = '_' :: '0' :: ['a', 'b', 'c'].map mapTail :=
  ⟨⟨by decide, by decide⟩, sanitizeName_leadingDigit '0' ['a', 'b', 'c'] (by decide) (by decide)⟩

/-! ### getAttrs (part_000 lines 194-221) -/

/-- Model of sanitizeRune (part_000 lines 229-234).  The Go code uses the
Unicode letter and digit categories; the model restricts them to their ASCII
part, on which the two classifications agree. -/
def sanitizeRune (r : Char) : Char :=
  if r.isAlpha || r.isDigit || r == ':' || r == '_' then r else '_'

/-- strings.Map sanitizeRune applied to an attribute key (part_000 line 202). -/
def sanitizeKeyStr (s : String) : String :=
  String.mk (s.data.map sanitizeRune)

/-- One step of building keysMap (part_000 lines 203-208): a fresh sanitized
key starts a one-element list, a duplicate sanitized key appends its value to
the existing list.  The Go map is modelled as an association list without
duplicate keys, in first-insertion order. -/
def insertKeysMap (m : List (String × List String)) (k v : String) :
    List (String × List String) :=
  match m with
  | [] => [(k, [v])]
  | (k0, vs) :: rest =>
    if k0 = k then (k0, vs ++ [v]) :: rest else (k0, vs) :: insertKeysMap rest k v

/-- keysMap after iterating over the attribute sequence (part_000 lines
198-209).  attrs is the iteration sequence of the attribute.Set, which
iterates its entries in sorted key order. -/
def buildKeysMap (attrs : List (String × String)) : List (String × List String) :=
  attrs.foldl (fun m kv => insertKeysMap m (sanitizeKeyStr kv.1) kv.2) []

def lookupVals : List (String × List String) → String → List String
  | [], _ => []
  | (k0, vs) :: rest, k => if k0 = k then vs else lookupVals rest k

/-- strings.Join with the semicolon separator (part_000 line 218). -/
def joinSemi : List String → String
  | [] => ""
  | [v] => v
  | v :: vs => v ++ ";" ++ joinSemi vs

/-- Model of getAttrs (part_000 lines 197-221).  The final loop ranges over
the Go map keysMap, whose iteration order is unspecified; ord is that order,
constrained by validIterOrder to visit every key exactly once.  The
sort.Slice call at lines 215-217 compares the indices i and j instead of the
values, so every comparison reports the slice as already sorted and the sort
performs no swaps; it is modelled as the identity. -/
def getAttrs (ord : List String) (attrs : List (String × String)) :
    List String × List String :=
  (ord, ord.map (fun k => joinSemi (lookupVals (buildKeysMap attrs) k)))

/-- The orders in which a Go map range statement can visit keysMap: any
sequence listing each key of the map exactly once. -/
def validIterOrder (ord : List String) (attrs : List (String × String)) : Prop :=
  ord.Nodup ∧ (∀ k ∈ ord, k ∈ (buildKeysMap attrs).map Prod.fst) ∧
    (∀ k ∈ (buildKeysMap attrs).map Prod.fst, k ∈ ord)

instance (ord : List String) (attrs : List (String × String)) :
    Decidable (validIterOrder ord attrs) := by
  unfold validIterOrder
  infer_instance


theorem lookupVals_insertKeysMap (m : List (String × List String)) (k v k' : String) :
    lookupVals (insertKeysMap m k v) k' =
      if k = k' then lookupVals m k' ++ [v] else lookupVals m k' := by
  induction m with
  | nil => by_cases h : k = k' <;> simp [insertKeysMap, lookupVals, h]
  | cons p rest ih =>
    obtain ⟨k0, vs⟩ := p
    by_cases h0 : k0 = k
    · subst h0
      by_cases h : k0 = k' <;> simp [insertKeysMap, lookupVals, h]
    · by_cases h : k0 = k'
      · subst h
        have hk : k ≠ k0 := fun he => h0 he.symm
        simp [insertKeysMap, lookupVals, h0, hk]
      · simp [insertKeysMap, lookupVals, h0, h, ih]

theorem keys_insertKeysMap (m : List (String × List String)) (k v : String) :
    (insertKeysMap m k v).map Prod.fst =
      if k ∈ m.map Prod.fst then m.map Prod.fst else m.map Prod.fst ++ [k] := by
  induction m with
  | nil => simp [insertKeysMap]
  | cons p rest ih =>
    obtain ⟨k0, vs⟩ := p
    by_cases h0 : k0 = k
    · subst h0
      simp [insertKeysMap]
    · have hk : k ≠ k0 := fun he => h0 he.symm
      by_cases hmem : k ∈ rest.map Prod.fst <;>
        simp [insertKeysMap, h0, hk, ih, hmem]

theorem nodup_keys_insertKeysMap (m : List (String × List String)) (k v : String)
    (h : (m.map Prod.fst).Nodup) : ((insertKeysMap m k v).map Prod.fst).Nodup := by
  rw [keys_insertKeysMap]
  by_cases hmem : k ∈ m.map Prod.fst
  · rwa [if_pos hmem]
  · rw [if_neg hmem]
    simp [List.nodup_append, h, hmem]

theorem mem_keys_insertKeysMap (m : List (String × List String)) (k v k' : String) :
    k' ∈ (insertKeysMap m k v).map Prod.fst ↔ k' ∈ m.map Prod.fst ∨ k' = k := by
  rw [keys_insertKeysMap]
  by_cases hmem : k ∈ m.map Prod.fst
  · rw [if_pos hmem]
    constructor
    · exact Or.inl
    · rintro (h | rfl)
      · exact h
      · exact hmem
  · rw [if_neg hmem]
    simp

theorem lookupVals_foldl (attrs : List (String × String)) :
    ∀ (m : List (String × List String)) (k : String),
      lookupVals
          (attrs.foldl (fun m kv => insertKeysMap m (sanitizeKeyStr kv.1) kv.2) m) k =
        lookupVals m k ++
          ((attrs.filter (fun p => sanitizeKeyStr p.1 = k)).map Prod.snd) := by
  induction attrs with
  | nil => intro m k; simp
  | cons p rest ih =>
    intro m k
    simp only [List.foldl_cons]
    rw [ih]
    by_cases h : sanitizeKeyStr p.1 = k
    · rw [lookupVals_insertKeysMap, if_pos h]
      simp [List.filter_cons, h]
    · rw [lookupVals_insertKeysMap, if_neg h]
      simp [List.filter_cons, h]

theorem lookupVals_buildKeysMap (attrs : List (String × String)) (k : String) :
    lookupVals (buildKeysMap attrs) k =
      (attrs.filter (fun p => sanitizeKeyStr p.1 = k)).map Prod.snd := by
  have h := lookupVals_foldl attrs [] k
  simpa [buildKeysMap, lookupVals] using h

theorem nodup_keys_foldl (attrs : List (String × String)) :
    ∀ (m : List (String × List String)), (m.map Prod.fst).Nodup →
      (((attrs.foldl (fun m kv => insertKeysMap m (sanitizeKeyStr kv.1) kv.2) m)).map
          Prod.fst).Nodup := by
  induction attrs with
  | nil => intro m h; simpa using h
  | cons p rest ih =>
    intro m h
    simp only [List.foldl_cons]
    exact ih _ (nodup_keys_insertKeysMap m _ _ h)

theorem nodup_keys_buildKeysMap (attrs : List (String × String)) :
    ((buildKeysMap attrs).map Prod.fst).Nodup :=
  nodup_keys_foldl attrs [] (by simp)

theorem mem_keys_foldl (attrs : List (String × String)) :
    ∀ (m : List (String × List String)) (k : String),
      k ∈ ((attrs.foldl (fun m kv => insertKeysMap m (sanitizeKeyStr kv.1) kv.2) m)).map
          Prod.fst ↔
        k ∈ m.map Prod.fst ∨ ∃ p ∈ attrs, sanitizeKeyStr p.1 = k := by
  induction attrs with
  | nil => intro m k; simp
  | cons p rest ih =>
    intro m k
    simp only [List.foldl_cons]
    rw [ih, mem_keys_insertKeysMap]
    constructor
    · rintro ((h | h) | h)
      · exact Or.inl h
      · exact Or.inr ⟨p, List.mem_cons_self _ _, h.symm⟩
      · rcases h with ⟨q, hq, he⟩
        exact Or.inr ⟨q, List.mem_cons_of_mem _ hq, he⟩
    · rintro (h | ⟨q, hq, he⟩)
      · exact Or.inl (Or.inl h)
      · rcases List.mem_cons.mp hq with rfl | hq2
        · exact Or.inl (Or.inr he.symm)
        · exact Or.inr ⟨q, hq2, he⟩

theorem mem_keys_buildKeysMap (attrs : List (String × String)) (k : String) :
    k ∈ (buildKeysMap attrs).map Prod.fst ↔ ∃ p ∈ attrs, sanitizeKeyStr p.1 = k := by
  have h := mem_keys_foldl attrs [] k
  simpa [buildKeysMap] using h
theorem validIterOrder_perm (ord : List String) (attrs : List (String × String))
    (h : validIterOrder ord attrs) :
    List.Perm ord ((buildKeysMap attrs).map Prod.fst) := by
  have hkeys := nodup_keys_buildKeysMap attrs
  exact (List.perm_ext_iff_of_nodup h.1 hkeys).mpr
    (fun a => ⟨fun ha => h.2.1 a ha, fun ha => h.2.2 a ha⟩)


/-- Claim C5: for any attribute iteration sequence and any order in which the
Go map can be visited, getAttrs returns label-name and label-value sequences
of equal length, the names contain no duplicates, a name appears exactly when
some source key sanitizes to it, and the value aligned with each name is the
semicolon join of the values of all source entries whose key sanitizes to
that name, so colliding values are merged and none is dropped. -/
theorem getAttrs_merges_collisions (attrs : List (String × String))
    (ord : List String) (hord : validIterOrder ord attrs) :
    (getAttrs ord attrs).1.length = (getAttrs ord attrs).2.length ∧
    (getAttrs ord attrs).1.Nodup ∧
    (∀ k, k ∈ (getAttrs ord attrs).1 ↔ ∃ p ∈ attrs, sanitizeKeyStr p.1 = k) ∧
    (∀ i (h1 : i < (getAttrs ord attrs).1.length)
        (h2 : i < (getAttrs ord attrs).2.length),
      (getAttrs ord attrs).2.get ⟨i, h2⟩ =
        joinSemi
          ((attrs.filter
              (fun p => sanitizeKeyStr p.1 = (getAttrs ord attrs).1.get ⟨i, h1⟩)).map
            Prod.snd)) := by
  have hperm := validIterOrder_perm ord attrs hord
  refine ⟨by simp [getAttrs], hord.1, ?_, ?_⟩
  · intro k
    rw [show (getAttrs ord attrs).1 = ord from rfl, hperm.mem_iff,
      mem_keys_buildKeysMap]
  · intro i h1 h2
    show (ord.map (fun k => joinSemi (lookupVals (buildKeysMap attrs) k))).get
        ⟨i, h2⟩ = _
    rw [List.get_map, lookupVals_buildKeysMap]
    rfl

/-- Instantiation of getAttrs_merges_collisions at the colliding keys a.b and
a-b of the specification example. -/
theorem getAttrs_merges_collisions_witness :
    validIterOrder ["a_b"] [("a-b", "y"), ("a.b", "x")] ∧
      (getAttrs ["a_b"] [("a-b", "y"), ("a.b", "x")]).1.Nodup :=
  ⟨by decide,
    (getAttrs_merges_collisions [("a-b", "y"), ("a.b", "x")] ["a_b"] (by decide)).2.1⟩

/-- Claim C7, counterexample: the final loop of getAttrs ranges over a Go
map, whose iteration order is unspecified; two valid orders for the same
attribute set give differently ordered label sequences, so the encoding is
not deterministic as a function of the attribute set alone. -/
theorem getAttrs_order_dependent :
    validIterOrder ["a", "b"] [("a", "x"), ("b", "y")] ∧
    validIterOrder ["b", "a"] [("a", "x"), ("b", "y")] ∧
    getAttrs ["a", "b"] [("a", "x"), ("b", "y")] ≠
      getAttrs ["b", "a"] [("a", "x"), ("b", "y")] :=
  ⟨by decide, by decide, by decide⟩

theorem zip_self_map {α β : Type} (l : List α) (f : α → β) :
    l.zip (l.map f) = l.map (fun a => (a, f a)) := by
  induction l with
  | nil => rfl
  | cons a l ih => simp [ih]

/-- Claim C7, amended: two calls of getAttrs with identical attribute sets
return the same name-to-value pairing up to reordering: the zipped
name-value sequences of any two valid map iteration orders are permutations
of each other, and calls observing the same iteration order return identical
sequences.  The sequence order itself depends on the map iteration order. -/
theorem getAttrs_deterministic_up_to_perm (attrs : List (String × String))
    (ord1 ord2 : List String) (h1 : validIterOrder ord1 attrs)
    (h2 : validIterOrder ord2 attrs) :
    List.Perm ((getAttrs ord1 attrs).1.zip (getAttrs ord1 attrs).2)
        ((getAttrs ord2 attrs).1.zip (getAttrs ord2 attrs).2) ∧
      (ord1 = ord2 → getAttrs ord1 attrs = getAttrs ord2 attrs) := by
  constructor
  · show List.Perm
      (ord1.zip (ord1.map fun k => joinSemi (lookupVals (buildKeysMap attrs) k)))
      (ord2.zip (ord2.map fun k => joinSemi (lookupVals (buildKeysMap attrs) k)))
    rw [zip_self_map, zip_self_map]
    exact ((validIterOrder_perm _ _ h1).trans
      (validIterOrder_perm _ _ h2).symm).map _
  · intro h
    rw [h]

/-- Instantiation of getAttrs_deterministic_up_to_perm at two iteration
orders of a two-key attribute set. -/
theorem getAttrs_deterministic_up_to_perm_witness :
    (validIterOrder ["a", "b"] [("a", "x"), ("b", "y")] ∧
        validIterOrder ["b", "a"] [("a", "x"), ("b", "y")]) ∧
      List.Perm
          ((getAttrs ["a", "b"] [("a", "x"), ("b", "y")]).1.zip
            (getAttrs ["a", "b"] [("a", "x"), ("b", "y")]).2)
          ((getAttrs ["b", "a"] [("a", "x"), ("b", "y")]).1.zip
            (getAttrs ["b", "a"] [("a", "x"), ("b", "y")]).2) :=
  ⟨⟨by decide, by decide⟩,
    (getAttrs_deterministic_up_to_perm [("a", "x"), ("b", "y")] ["a", "b"]
        ["b", "a"] (by decide) (by decide)).1⟩

/-! ### Histogram bucket accumulation (part_000 lines 144-150) -/

/-- uint64 arithmetic wraps modulo 2 to the 64. -/
def u64Mod : Nat := 2 ^ 64

/-- Insert-or-overwrite into the Go map buckets, modelled as an association
list without duplicate keys.  float64 bucket bounds are used only as map
keys and are modelled by rationals. -/
def mapInsert (m : List (ℚ × Nat)) (k : ℚ) (v : Nat) : List (ℚ × Nat) :=
  match m with
  | [] => [(k, v)]
  | (k0, v0) :: rest =>
    if k0 = k then (k, v) :: rest else (k0, v0) :: mapInsert rest k v

def mapLookup : List (ℚ × Nat) → ℚ → Option Nat
  | [], _ => none
  | (k0, v0) :: rest, k => if k0 = k then some v0 else mapLookup rest k

/-- The loop of addHistogramMetric over the bounds (part_000 lines 146-150):
cumulativeCount accumulates BucketCounts entry by entry in uint64 arithmetic
and each bound is mapped to the running total.  The source indexes
BucketCounts directly; well-formed data has one more count than bounds, and
a missing entry is modelled as zero. -/
def bucketsLoop : List ℚ → List Nat → Nat → List (ℚ × Nat) → List (ℚ × Nat)
  | [], _, _, m => m
  | b :: bs, counts, cum, m =>
    let cum1 := (cum + counts.headD 0) % u64Mod
    bucketsLoop bs counts.tail cum1 (mapInsert m b cum1)

/-- The buckets map of one histogram data point (part_000 lines 144-150). -/
def cumulativeBuckets (bounds : List ℚ) (counts : List Nat) : List (ℚ × Nat) :=
  bucketsLoop bounds counts 0 []

theorem mapLookup_mapInsert (m : List (ℚ × Nat)) (k k' : ℚ) (v : Nat) :
    mapLookup (mapInsert m k v) k' =
      if k = k' then some v else mapLookup m k' := by
  induction m with
  | nil => by_cases h : k = k' <;> simp [mapInsert, mapLookup, h]
  | cons p rest ih =>
    obtain ⟨k0, v0⟩ := p
    by_cases h0 : k0 = k
    · subst h0
      by_cases h : k0 = k' <;> simp [mapInsert, mapLookup, h]
    · by_cases h : k0 = k'
      · subst h
        have hk : k ≠ k0 := fun he => h0 he.symm
        simp [mapInsert, mapLookup, h0, hk]
      · simp [mapInsert, mapLookup, h0, h, ih]

theorem bucketsLoop_lookup_notMem (bs : List ℚ) :
    ∀ (counts : List Nat) (cum : Nat) (m : List (ℚ × Nat)) (k : ℚ), k ∉ bs →
      mapLookup (bucketsLoop bs counts cum m) k = mapLookup m k := by
  induction bs with
  | nil => intro counts cum m k _; rfl
  | cons b bs ih =>
    intro counts cum m k hk
    rw [bucketsLoop]
    rw [ih _ _ _ _ (fun hmem => hk (List.mem_cons_of_mem _ hmem))]
    rw [mapLookup_mapInsert,
      if_neg (fun he => hk (by rw [← he]; exact List.mem_cons_self _ _))]

theorem sum_take_succ_eq (counts : List Nat) (i : Nat) :
    (counts.take (i + 1)).sum = counts.headD 0 + (counts.tail.take i).sum := by
  cases counts with
  | nil => simp
  | cons c cs => simp [List.sum_cons]

theorem bucketsLoop_lookup (bs : List ℚ) :
    ∀ (counts : List Nat) (cum : Nat) (m : List (ℚ × Nat)), bs.Nodup →
      ∀ i (h : i < bs.length),
        mapLookup (bucketsLoop bs counts cum m) (bs.get ⟨i, h⟩) =
          some ((cum + (counts.take (i + 1)).sum) % u64Mod) := by
  induction bs with
  | nil => intro counts cum m _ i h; simp at h
  | cons b bs ih =>
    intro counts cum m hnd i h
    rw [bucketsLoop]
    match i with
    | 0 =>
      show mapLookup _ b = _
      rw [bucketsLoop_lookup_notMem bs _ _ _ b (List.nodup_cons.mp hnd).1,
        mapLookup_mapInsert, if_pos rfl]
      cases counts with
      | nil => simp
      | cons c cs => simp [List.sum_cons]
    | j + 1 =>
      show mapLookup _ (bs.get ⟨j, Nat.lt_of_succ_lt_succ h⟩) = _
      rw [ih counts.tail _ _ (List.nodup_cons.mp hnd).2 j
        (Nat.lt_of_succ_lt_succ h)]
      congr 1
      rw [sum_take_succ_eq counts (j + 1), ← Nat.add_assoc, Nat.mod_add_mod]

theorem bucketsLoop_take (bs : List ℚ) :
    ∀ (counts : List Nat) (cum : Nat) (m : List (ℚ × Nat)),
      bucketsLoop bs counts cum m = bucketsLoop bs (counts.take bs.length) cum m := by
  induction bs with
  | nil => intro counts cum m; rfl
  | cons b bs ih =>
    intro counts cum m
    rw [bucketsLoop, bucketsLoop]
    cases counts with
    | nil => simp [ih]
    | cons c cs =>
      simp only [List.take_succ_cons, List.headD_cons, List.tail_cons]
      exact ih cs _ _

/-- Claim C1: with n bounds and n plus one bucket counts, the cumulative
bucket map sends the i-th bound to the uint64 sum of the counts up to and
including index i; the final overflow count never enters the map, since the
map is unchanged when the counts are truncated to the first n entries; and
the specification example of bounds 1, 5, 10 with counts 2, 3, 4, 1 yields
the map sending 1 to 2, 5 to 5 and 10 to 9. -/
theorem cumulativeBuckets_spec (bounds : List ℚ) (counts : List Nat)
    (hlen : counts.length = bounds.length + 1) (hnd : bounds.Nodup) :
    (∀ i (h : i < bounds.length),
        mapLookup (cumulativeBuckets bounds counts) (bounds.get ⟨i, h⟩) =
          some ((counts.take (i + 1)).sum % u64Mod)) ∧
      cumulativeBuckets bounds counts =
        cumulativeBuckets bounds (counts.take bounds.length) ∧
      cumulativeBuckets [1, 5, 10] [2, 3, 4, 1] = [(1, 2), (5, 5), (10, 9)] := by
  refine ⟨?_, ?_, by decide⟩
  · intro i h
    have := bucketsLoop_lookup bounds counts 0 [] hnd i h
    simpa [cumulativeBuckets] using this
  · exact bucketsLoop_take bounds counts 0 []

/-- Instantiation of cumulativeBuckets_spec at the specification example. -/
theorem cumulativeBuckets_spec_witness :
    (([2, 3, 4, 1] : List Nat).length = ([1, 5, 10] : List ℚ).length + 1 ∧
        ([1, 5, 10] : List ℚ).Nodup) ∧
      mapLookup (cumulativeBuckets [1, 5, 10] [2, 3, 4, 1]) 5 = some 5 := by
  refine ⟨⟨by decide, by decide⟩, ?_⟩
  have h :=
    (cumulativeBuckets_spec [1, 5, 10] [2, 3, 4, 1] (by decide) (by decide)).1 1
      (by decide)
  simpa using h

/-! ### Metric records and the per-kind translation loops
(part_000 lines 139-192) -/

/-- prometheus.Desc as far as this code populates it (part_000 line 143):
fully qualified name, help text and variable label names.  NewDesc is given
no constant labels. -/
structure Desc where
  fqName : String
  help : String
  variableLabels : List String
deriving DecidableEq

inductive ValueKind
  | counter
  | gauge
  | histogramKind
deriving DecidableEq

/-- A constant prometheus metric as produced by NewConstMetric or
NewConstHistogram.  Scalar payloads pass through float64 conversion
unchanged for the data of interest and are modelled by rationals. -/
inductive PromMetric
  | const (desc : Desc) (kind : ValueKind) (value : ℚ) (labelValues : List String)
  | histo (desc : Desc) (count : Nat) (sum : ℚ) (buckets : List (ℚ × Nat))
      (labelValues : List String)
deriving DecidableEq

def PromMetric.mDesc : PromMetric → Desc
  | .const d _ _ _ => d
  | .histo d _ _ _ _ => d

def PromMetric.mName (m : PromMetric) : String :=
  m.mDesc.fqName

def PromMetric.mKind : PromMetric → ValueKind
  | .const _ k _ _ => k
  | .histo _ _ _ _ _ => .histogramKind

/-- Errors surfaced to otel.Handle. -/
inductive OErr
  | readerNotRegistered
  | readerOther (msg : String)
  | construct (d : Desc) (labelValues : List String)
deriving DecidableEq

/-- A number-valued data point (metricdata.DataPoint): its attribute set is
modelled by the sequence in which the set iterates its entries. -/
structure DataPoint where
  attrs : List (String × String)
  value : ℚ

/-- metricdata.Sum.  The int64 and float64 instantiations of the generic Go
code behave identically and are merged. -/
structure SumData where
  isMonotonic : Bool
  dataPoints : List DataPoint

structure GaugeData where
  dataPoints : List DataPoint

/-- One histogram data point (metricdata.HistogramDataPoint). -/
structure HistDP where
  attrs : List (String × String)
  count : Nat
  sum : ℚ
  bounds : List ℚ
  bucketCounts : List Nat

structure HistogramData where
  dataPoints : List HistDP

inductive MetricData
  | histogram (h : HistogramData)
  | sumData (s : SumData)
  | gaugeData (g : GaugeData)

/-- metricdata.Metrics.  unit.Unit is a string type in Go. -/
structure Metrics where
  name : String
  description : String
  unit : String
  data : MetricData

/-- An order chooser standing for the Go runtime: for each attribute
sequence, the order in which the range statement visits the keysMap built
from it. -/
def OrdChooser : Type := List (String × String) → List String

/-- A construction oracle standing for the prometheus client library: given
the descriptor and the label values, whether NewConstMetric or
NewConstHistogram accepts the record.  Its error value is modelled as
OErr.construct applied to the same data. -/
def MkOracle : Type := Desc → List String → Bool

/-- prometheus counters MUST have a _total suffix (part_000 line 61). -/
def counterSuffix : String := "_total"

/-- The shared shape of the loops of addSumMetric (part_000 lines 169-178)
and addGaugeMetric (part_000 lines 182-191): per data point, encode the
attributes, build the descriptor, and either emit the constructed record or
report the construction error and continue with the next data point. -/
def sumLoop (mk : MkOracle) (ch : OrdChooser) (vt : ValueKind)
    (name descr : String) : List DataPoint → List PromMetric × List OErr
  | [] => ([], [])
  | dp :: rest =>
    let keys := (getAttrs (ch dp.attrs) dp.attrs).1
    let values := (getAttrs (ch dp.attrs) dp.attrs).2
    let desc : Desc := ⟨name, descr, keys⟩
    let out := sumLoop mk ch vt name descr rest
    if mk desc values then (PromMetric.const desc vt dp.value values :: out.1, out.2)
    else (out.1, OErr.construct desc values :: out.2)

/-- Model of addSumMetric (part_000 lines 160-179): the value kind is
counter exactly for a monotonic sum, and for a monotonic sum the counter
suffix is appended to the name once, before the loop over the data points.
The first component collects the records sent to ch, the second the errors
passed to otel.Handle, each in order. -/
def addSumMetric (mk : MkOracle) (ch : OrdChooser) (s : SumData) (m : Metrics)
    (name : String) : List PromMetric × List OErr :=
  let vt := if s.isMonotonic then ValueKind.counter else ValueKind.gauge
  let nm := if s.isMonotonic then name ++ counterSuffix else name
  sumLoop mk ch vt nm m.description s.dataPoints

/-- Model of addGaugeMetric (part_000 lines 181-192), the same loop with the
gauge value kind and the unmodified name. -/
def addGaugeMetric (mk : MkOracle) (ch : OrdChooser) (g : GaugeData)
    (m : Metrics) (name : String) : List PromMetric × List OErr :=
  sumLoop mk ch ValueKind.gauge name m.description g.dataPoints

/-- The loop of addHistogramMetric (part_000 lines 141-157). -/
def histLoop (mk : MkOracle) (ch : OrdChooser) (name descr : String) :
    List HistDP → List PromMetric × List OErr
  | [] => ([], [])
  | dp :: rest =>
    let keys := (getAttrs (ch dp.attrs) dp.attrs).1
    let values := (getAttrs (ch dp.attrs) dp.attrs).2
    let desc : Desc := ⟨name, descr, keys⟩
    let buckets := cumulativeBuckets dp.bounds dp.bucketCounts
    let out := histLoop mk ch name descr rest
    if mk desc values then
      (PromMetric.histo desc dp.count dp.sum buckets values :: out.1, out.2)
    else (out.1, OErr.construct desc values :: out.2)

/-- Model of addHistogramMetric (part_000 lines 139-158). -/
def addHistogramMetric (mk : MkOracle) (ch : OrdChooser) (h : HistogramData)
    (m : Metrics) (name : String) : List PromMetric × List OErr :=
  histLoop mk ch name m.description h.dataPoints

/-! ### getName and the unit suffixes (part_000 lines 236-252) -/

/-- unit.Dimensionless. -/
def unitDimensionless : String := "1"

/-- unit.Bytes. -/
def unitBytes : String := "By"

/-- unit.Milliseconds. -/
def unitMilliseconds : String := "ms"

/-- The unitSuffixes map (part_000 lines 236-240). -/
def unitSuffixes : List (String × String) :=
  [(unitDimensionless, "_ratio"), (unitBytes, "_bytes"),
    (unitMilliseconds, "_milliseconds")]

def lookupAssoc : List (String × String) → String → Option String
  | [], _ => none
  | (k0, v0) :: rest, k => if k0 = k then some v0 else lookupAssoc rest k

/-- The collector state (part_000 lines 50-57): configuration flags, the
cached target-info metric and the done flag of createTargetInfoOnce. -/
structure Collector where
  disableTargetInfo : Bool
  withoutUnits : Bool
  targetInfo : Option PromMetric
  targetInfoDone : Bool
deriving DecidableEq

/-- Model of collector.getName (part_000 lines 242-252): sanitize, then
append the unit suffix unless units are disabled. -/
def getNameStr (c : Collector) (m : Metrics) : String :=
  let name := sanitizeNameStr m.name
  if c.withoutUnits then name
  else
    match lookupAssoc unitSuffixes m.unit with
    | some suffix => name ++ suffix
    | none => name

/-- The fixed suffix mapping in the words of the specification:
dimensionless to _ratio, bytes to _bytes, milliseconds to _milliseconds, and
no suffix for any other unit. -/
def suffixFor (u : String) : String :=
  if u = unitDimensionless then "_ratio"
  else if u = unitBytes then "_bytes"
  else if u = unitMilliseconds then "_milliseconds"
  else ""

/-- Claim C6: the translation name is the sanitized source name followed by
the suffix of the fixed unit mapping, and no suffix at all when the
withoutUnits flag is set. -/
theorem getName_suffix (c : Collector) (m : Metrics) :
    getNameStr c m =
      sanitizeNameStr m.name ++ (if c.withoutUnits then "" else suffixFor m.unit) := by
  unfold getNameStr suffixFor
  by_cases hw : c.withoutUnits
  · simp [hw]
  · simp only [hw, if_false, Bool.false_eq_true]
    by_cases h1 : m.unit = unitDimensionless
    · simp [lookupAssoc, unitSuffixes, h1]
    · by_cases h2 : m.unit = unitBytes
      · simp [lookupAssoc, unitSuffixes, h2, unitDimensionless, unitBytes]
      · by_cases h3 : m.unit = unitMilliseconds
        · simp [lookupAssoc, unitSuffixes, h3, unitDimensionless, unitBytes,
            unitMilliseconds]
        · have e1 : unitDimensionless ≠ m.unit := fun he => h1 he.symm
          have e2 : unitBytes ≠ m.unit := fun he => h2 he.symm
          have e3 : unitMilliseconds ≠ m.unit := fun he => h3 he.symm
          simp [lookupAssoc, unitSuffixes, e1, e2, e3, h1, h2, h3]

theorem sumLoop_mem (mk : MkOracle) (ch : OrdChooser) (vt : ValueKind)
    (nm descr : String) :
    ∀ dps, ∀ pm ∈ (sumLoop mk ch vt nm descr dps).1,
      pm.mKind = vt ∧ pm.mName = nm := by
  intro dps
  induction dps with
  | nil => intro pm h; simp [sumLoop] at h
  | cons dp rest ih =>
    intro pm h
    simp only [sumLoop] at h
    by_cases hmk :
        mk ⟨nm, descr, (getAttrs (ch dp.attrs) dp.attrs).1⟩
          (getAttrs (ch dp.attrs) dp.attrs).2 = true
    · rw [if_pos hmk] at h
      rcases List.mem_cons.mp h with rfl | hmem
      · exact ⟨rfl, rfl⟩
      · exact ih pm hmem
    · rw [if_neg hmk] at h
      exact ih pm h

/-- Claim C2: every record produced for a monotonic sum has counter kind and
carries the computed metric name with the counter suffix appended once,
before the iteration over data points; every record for a non-monotonic sum
has gauge kind and the unchanged computed name. -/
theorem addSumMetric_kind_name (mk : MkOracle) (ch : OrdChooser) (s : SumData)
    (m : Metrics) (c : Collector) :
    ∀ pm ∈ (addSumMetric mk ch s m (getNameStr c m)).1,
      pm.mKind = (if s.isMonotonic then ValueKind.counter else ValueKind.gauge) ∧
        pm.mName =
          (if s.isMonotonic then getNameStr c m ++ counterSuffix
            else getNameStr c m) := by
  intro pm h
  by_cases hm : s.isMonotonic
  · simp only [addSumMetric, hm] at h ⊢
    simpa using sumLoop_mem mk ch _ _ _ s.dataPoints pm h
  · simp only [addSumMetric, hm] at h ⊢
    simpa using sumLoop_mem mk ch _ _ _ s.dataPoints pm h

def mkAll : MkOracle := fun _ _ => true

def mkNone : MkOracle := fun _ _ => false

def ordEmpty : OrdChooser := fun _ => []

def sampleCollector : Collector := ⟨false, false, none, false⟩

def sampleSum : SumData := ⟨true, [⟨[], 0⟩]⟩

def sampleSumMetric : Metrics := ⟨"requests", "", "", MetricData.sumData sampleSum⟩

theorem sumLoop_append (mk : MkOracle) (ch : OrdChooser) (vt : ValueKind)
    (nm descr : String) (l1 l2 : List DataPoint) :
    sumLoop mk ch vt nm descr (l1 ++ l2) =
      ((sumLoop mk ch vt nm descr l1).1 ++ (sumLoop mk ch vt nm descr l2).1,
        (sumLoop mk ch vt nm descr l1).2 ++ (sumLoop mk ch vt nm descr l2).2) := by
  induction l1 with
  | nil => simp [sumLoop]
  | cons dp rest ih =>
    simp only [List.cons_append, sumLoop, ih]
    by_cases hmk :
        mk ⟨nm, descr, (getAttrs (ch dp.attrs) dp.attrs).1⟩
          (getAttrs (ch dp.attrs) dp.attrs).2 = true
    · simp [hmk, ih]
    · simp [hmk, ih]

theorem histLoop_append (mk : MkOracle) (ch : OrdChooser) (nm descr : String)
    (l1 l2 : List HistDP) :
    histLoop mk ch nm descr (l1 ++ l2) =
      ((histLoop mk ch nm descr l1).1 ++ (histLoop mk ch nm descr l2).1,
        (histLoop mk ch nm descr l1).2 ++ (histLoop mk ch nm descr l2).2) := by
  induction l1 with
  | nil => simp [histLoop]
  | cons dp rest ih =>
    simp only [List.cons_append, histLoop, ih]
    by_cases hmk :
        mk ⟨nm, descr, (getAttrs (ch dp.attrs) dp.attrs).1⟩
          (getAttrs (ch dp.attrs) dp.attrs).2 = true
    · simp [hmk, ih]
    · simp [hmk, ih]

/-- Claim C8: a data point whose record construction is rejected by the
oracle is skipped: for both sums and histograms, the records of a sequence
of data points containing one rejected point are exactly the records of the
sibling points before and after it, and the handled errors are those of the
siblings with the rejected point's construction error in between.  No
rejection suppresses another record or aborts the loop. -/
theorem failed_dataPoint_skipped (mk : MkOracle) (ch : OrdChooser) (m : Metrics)
    (nameS nameH : String) (mono : Bool) (dps1 dps2 : List DataPoint)
    (dp : DataPoint) (hdps1 hdps2 : List HistDP) (hdp : HistDP)
    (hfailS :
      mk ⟨(if mono then nameS ++ counterSuffix else nameS), m.description,
          (getAttrs (ch dp.attrs) dp.attrs).1⟩
        (getAttrs (ch dp.attrs) dp.attrs).2 = false)
    (hfailH :
      mk ⟨nameH, m.description, (getAttrs (ch hdp.attrs) hdp.attrs).1⟩
        (getAttrs (ch hdp.attrs) hdp.attrs).2 = false) :
    ((addSumMetric mk ch ⟨mono, dps1 ++ dp :: dps2⟩ m nameS).1 =
        (addSumMetric mk ch ⟨mono, dps1⟩ m nameS).1 ++
          (addSumMetric mk ch ⟨mono, dps2⟩ m nameS).1 ∧
      (addSumMetric mk ch ⟨mono, dps1 ++ dp :: dps2⟩ m nameS).2 =
        (addSumMetric mk ch ⟨mono, dps1⟩ m nameS).2 ++
          OErr.construct
              ⟨(if mono then nameS ++ counterSuffix else nameS), m.description,
                (getAttrs (ch dp.attrs) dp.attrs).1⟩
              (getAttrs (ch dp.attrs) dp.attrs).2 ::
            (addSumMetric mk ch ⟨mono, dps2⟩ m nameS).2) ∧
    ((addHistogramMetric mk ch ⟨hdps1 ++ hdp :: hdps2⟩ m nameH).1 =
        (addHistogramMetric mk ch ⟨hdps1⟩ m nameH).1 ++
          (addHistogramMetric mk ch ⟨hdps2⟩ m nameH).1 ∧
      (addHistogramMetric mk ch ⟨hdps1 ++ hdp :: hdps2⟩ m nameH).2 =
        (addHistogramMetric mk ch ⟨hdps1⟩ m nameH).2 ++
          OErr.construct
              ⟨nameH, m.description, (getAttrs (ch hdp.attrs) hdp.attrs).1⟩
              (getAttrs (ch hdp.attrs) hdp.attrs).2 ::
            (addHistogramMetric mk ch ⟨hdps2⟩ m nameH).2) := by
  constructor
  · unfold addSumMetric
    rw [sumLoop_append]
    constructor
    · show _ ++ (sumLoop _ _ _ _ _ (dp :: dps2)).1 = _
      simp only [sumLoop, hfailS, Bool.false_eq_true, if_false]
    · show _ ++ (sumLoop _ _ _ _ _ (dp :: dps2)).2 = _
      simp only [sumLoop, hfailS, Bool.false_eq_true, if_false]
  · unfold addHistogramMetric
    rw [histLoop_append]
    constructor
    · show _ ++ (histLoop _ _ _ _ (hdp :: hdps2)).1 = _
      simp only [histLoop, hfailH, Bool.false_eq_true, if_false]
    · show _ ++ (histLoop _ _ _ _ (hdp :: hdps2)).2 = _
      simp only [histLoop, hfailH, Bool.false_eq_true, if_false]

/-- Instantiation of failed_dataPoint_skipped with a rejecting oracle and
singleton data-point lists. -/
theorem failed_dataPoint_skipped_witness :
    (mkNone ⟨(if true then "s" ++ counterSuffix else "s"), "",
          (getAttrs (ordEmpty []) []).1⟩ (getAttrs (ordEmpty []) []).2 = false ∧
        mkNone ⟨"h", "", (getAttrs (ordEmpty []) []).1⟩
          (getAttrs (ordEmpty []) []).2 = false) ∧
      (addSumMetric mkNone ordEmpty ⟨true, [] ++ ⟨[], 0⟩ :: []⟩
          ⟨"n", "", "", MetricData.sumData ⟨true, []⟩⟩ "s").1 =
        (addSumMetric mkNone ordEmpty ⟨true, []⟩
            ⟨"n", "", "", MetricData.sumData ⟨true, []⟩⟩ "s").1 ++
          (addSumMetric mkNone ordEmpty ⟨true, []⟩
            ⟨"n", "", "", MetricData.sumData ⟨true, []⟩⟩ "s").1 :=
  ⟨⟨by decide, by decide⟩,
    (failed_dataPoint_skipped mkNone ordEmpty
        ⟨"n", "", "", MetricData.sumData ⟨true, []⟩⟩ "s" "h" true [] [] ⟨[], 0⟩
        [] [] ⟨[], 0, 0, [], []⟩ (by decide) (by decide)).1.1⟩

/-- Instantiation of addSumMetric_kind_name at a monotonic sum named
requests with an unspecified unit: the record is a counter named
requests_total. -/
theorem addSumMetric_kind_name_witness :
    PromMetric.const ⟨"requests_total", "", []⟩ ValueKind.counter 0 [] ∈
        (addSumMetric mkAll ordEmpty sampleSum sampleSumMetric
          (getNameStr sampleCollector sampleSumMetric)).1 ∧
      (PromMetric.const ⟨"requests_total", "", []⟩ ValueKind.counter 0 []).mKind =
          (if sampleSum.isMonotonic then ValueKind.counter else ValueKind.gauge) ∧
        (PromMetric.const ⟨"requests_total", "", []⟩ ValueKind.counter 0 []).mName =
          (if sampleSum.isMonotonic then
              getNameStr sampleCollector sampleSumMetric ++ counterSuffix
            else getNameStr sampleCollector sampleSumMetric) :=
  ⟨by decide,
    addSumMetric_kind_name mkAll ordEmpty sampleSum sampleSumMetric sampleCollector
      _ (by decide)⟩

/-! ### collector.Collect (part_000 lines 98-137) -/

structure ScopeMetrics where
  metrics : List Metrics

/-- metricdata.ResourceMetrics: the resource is modelled by the iteration
sequence of its attribute set. -/
structure ResourceMetrics where
  resource : List (String × String)
  scopeMetrics : List ScopeMetrics

/-- What c.reader.Collect returned: the snapshot value and the error value.
Go returns both; on error the snapshot may be partial or zero. -/
structure ReaderResult where
  metrics : ResourceMetrics
  err : Option OErr

def targetInfoMetricName : String := "target_info"

def targetInfoDescription : String := "Target metadata"

/-- Model of collector.createInfoMetric (part_000 lines 223-227). -/
def createInfoMetric (mk : MkOracle) (ch : OrdChooser) (name descr : String)
    (res : List (String × String)) : Except OErr PromMetric :=
  let keys := (getAttrs (ch res) res).1
  let values := (getAttrs (ch res) res).2
  let desc : Desc := ⟨name, descr, keys⟩
  if mk desc values then Except.ok (PromMetric.const desc ValueKind.gauge 1 values)
  else Except.error (OErr.construct desc values)

/-- The switch over m.Data (part_000 lines 123-134).  The int64 and float64
sum and gauge cases are merged; a data kind outside the switch would produce
nothing. -/
def translateMetric (mk : MkOracle) (ch : OrdChooser) (c : Collector)
    (m : Metrics) : List PromMetric × List OErr :=
  match m.data with
  | .histogram h => addHistogramMetric mk ch h m (getNameStr c m)
  | .sumData s => addSumMetric mk ch s m (getNameStr c m)
  | .gaugeData g => addGaugeMetric mk ch g m (getNameStr c m)

def translateList (mk : MkOracle) (ch : OrdChooser) (c : Collector) :
    List Metrics → List PromMetric × List OErr
  | [] => ([], [])
  | m :: rest =>
    let out := translateMetric mk ch c m
    let next := translateList mk ch c rest
    (out.1 ++ next.1, out.2 ++ next.2)

/-- The nested loops over scope metrics (part_000 lines 121-136). -/
def translateScopes (mk : MkOracle) (ch : OrdChooser) (c : Collector) :
    List ScopeMetrics → List PromMetric × List OErr
  | [] => ([], [])
  | sm :: rest =>
    let out := translateList mk ch c sm.metrics
    let next := translateScopes mk ch c rest
    (out.1 ++ next.1, out.2 ++ next.2)

/-- The body of Collect after the reader error check (part_000 lines
108-136): run the createTargetInfoOnce body if it has not run, latch
disableTargetInfo on a failed target-info construction, emit the cached
target-info record unless disabled, then translate every metric of every
scope.  Returns the new collector state, the records sent to ch and the
errors passed to otel.Handle, in order. -/
def collectBody (mk : MkOracle) (ch : OrdChooser) (c : Collector)
    (rm : ResourceMetrics) : Collector × List PromMetric × List OErr :=
  let once :
      Collector × List OErr :=
    if c.targetInfoDone then (c, [])
    else
      match createInfoMetric mk ch targetInfoMetricName targetInfoDescription
          rm.resource with
      | .ok ti => ({ c with targetInfo := some ti, targetInfoDone := true }, [])
      | .error e =>
        ({ c with
            targetInfo := none
            disableTargetInfo := true
            targetInfoDone := true }, [e])
  let c1 := once.1
  let tiEmit := if c1.disableTargetInfo then [] else c1.targetInfo.toList
  let outs := translateScopes mk ch c1 rm.scopeMetrics
  (c1, tiEmit ++ outs.1, once.2 ++ outs.2)

/-- Model of collector.Collect (part_000 lines 99-137).  A reader error is
passed to otel.Handle first; if it is metric.ErrReaderNotRegistered the
function returns immediately, otherwise it falls through to the normal path
on whatever snapshot the reader returned. -/
def collectModel (mk : MkOracle) (ch : OrdChooser) (c : Collector)
    (res : ReaderResult) : Collector × List PromMetric × List OErr :=
  match res.err with
  | none => collectBody mk ch c res.metrics
  | some e =>
    if e = OErr.readerNotRegistered then (c, [], [e])
    else
      let out := collectBody mk ch c res.metrics
      (out.1, out.2.1, e :: out.2.2)

def freshCollector : Collector := ⟨false, false, none, false⟩

def emptyRM : ResourceMetrics := ⟨[], []⟩

/-- Claim C9, counterexample: on the not-yet-registered reader error,
Collect emits nothing and returns early, but it does report the error to
the fault handler (otel.Handle runs before the early return), so the error
is not silently swallowed. -/
theorem collect_notRegistered_reported :
    (collectModel mkAll ordEmpty freshCollector
          ⟨emptyRM, some OErr.readerNotRegistered⟩).2.1 = [] ∧
      (collectModel mkAll ordEmpty freshCollector
          ⟨emptyRM, some OErr.readerNotRegistered⟩).2.2 =
        [OErr.readerNotRegistered] ∧
      ([OErr.readerNotRegistered] : List OErr) ≠ [] :=
  ⟨rfl, rfl, by decide⟩

/-- Claim C9, amended: on the not-yet-registered reader error, Collect
emits no record, leaves the collector state unchanged and returns early,
after passing the error to the fault handler. -/
theorem collect_notRegistered (mk : MkOracle) (ch : OrdChooser) (c : Collector)
    (res : ReaderResult) (h : res.err = some OErr.readerNotRegistered) :
    collectModel mk ch c res = (c, [], [OErr.readerNotRegistered]) := by
  unfold collectModel
  rw [h]
  simp

/-- Instantiation of collect_notRegistered at a fresh collector. -/
theorem collect_notRegistered_witness :
    (ReaderResult.mk emptyRM (some OErr.readerNotRegistered)).err =
        some OErr.readerNotRegistered ∧
      collectModel mkAll ordEmpty freshCollector
          ⟨emptyRM, some OErr.readerNotRegistered⟩ =
        (freshCollector, [], [OErr.readerNotRegistered]) :=
  ⟨rfl, collect_notRegistered mkAll ordEmpty freshCollector _ rfl⟩

/-- Claim C10: on any reader error other than not-registered, Collect
reports the error to the fault handler and then proceeds exactly as the
error-free run on the returned snapshot: same final state, same emitted
records (target info and translated scope metrics), and the handled errors
are the reader error followed by the handled errors of the error-free
run. -/
theorem collect_otherError_proceeds (mk : MkOracle) (ch : OrdChooser)
    (c : Collector) (res : ReaderResult) (e : OErr) (h1 : res.err = some e)
    (h2 : e ≠ OErr.readerNotRegistered) :
    collectModel mk ch c res =
      ((collectModel mk ch c ⟨res.metrics, none⟩).1,
        (collectModel mk ch c ⟨res.metrics, none⟩).2.1,
        e :: (collectModel mk ch c ⟨res.metrics, none⟩).2.2) := by
  unfold collectModel
  rw [h1]
  simp [h2]

/-- Instantiation of collect_otherError_proceeds at a one-gauge snapshot. -/
theorem collect_otherError_proceeds_witness :
    ((ReaderResult.mk emptyRM (some (OErr.readerOther "boom"))).err =
          some (OErr.readerOther "boom") ∧
        OErr.readerOther "boom" ≠ OErr.readerNotRegistered) ∧
      collectModel mkAll ordEmpty freshCollector
          ⟨emptyRM, some (OErr.readerOther "boom")⟩ =
        ((collectModel mkAll ordEmpty freshCollector ⟨emptyRM, none⟩).1,
          (collectModel mkAll ordEmpty freshCollector ⟨emptyRM, none⟩).2.1,
          OErr.readerOther "boom" ::
            (collectModel mkAll ordEmpty freshCollector ⟨emptyRM, none⟩).2.2) :=
  ⟨⟨rfl, by decide⟩,
    collect_otherError_proceeds mkAll ordEmpty freshCollector _ _ rfl (by decide)⟩

end OtelProm
